import Mathlib

/-!
Verification of the Metric Extraction & Normalization Pipeline
(`scripts/transform.py`, with the rank/score extraction of
`scripts/scraper.py` as context).

The data model is embedded shallowly:
* textual values are `String` / `List Char`;
* Python floats are modelled as exact rationals `ℚ` (every claim-relevant
  computation is exact in binary64 as well: `float("12.9")*1000 == 12900.0`
  and `float("2.3")*1e9 == 2.3e9` hold exactly in Python);
* a pandas cell is `Cell` (missing / string / integer / float);
* a DataFrame is an ordered association list of named columns.

Decimal-literal parsing is split into a structural phase (`parseFloatLit`,
producing mantissa / fraction length / exponent) and an exact rational
valuation (`decLitVal`), so that concrete inputs evaluate by `decide`
while the value semantics stays in `ℚ`.
-/

set_option maxRecDepth 10000

/-! ### Character-level helpers (Python `str.lower`, `str.strip`, `re.sub`) -/

/-- Lower-cased character list of a string: Python `value.lower()` on the
basic-latin range (`Char.toLower`, as in CPython for ASCII data). -/
def lowerChars (l : List Char) : List Char :=
  l.map Char.toLower

/-- Python `pat in s` on character lists: `pat` occurs contiguously in `l`. -/
def hasSubstr (pat : List Char) : List Char → Bool
  | [] => pat.isEmpty
  | c :: rest => pat.isPrefixOf (c :: rest) || hasSubstr pat rest

/-- Python `str.strip()`: drop leading and trailing whitespace. -/
def stripEnds (l : List Char) : List Char :=
  ((l.dropWhile Char.isWhitespace).reverse.dropWhile Char.isWhitespace).reverse

/-- Worker for `stripWordInsens`: scans left to right; a positive `skip`
means that many characters of a just-matched occurrence remain to be
discarded. -/
def stripWordAux (pat : List Char) : List Char → ℕ → List Char
  | [], _ => []
  | _ :: rest, skip + 1 => stripWordAux pat rest skip
  | c :: rest, 0 =>
    if pat.isPrefixOf (lowerChars (c :: rest)) then
      stripWordAux pat rest (pat.length - 1)
    else
      c :: stripWordAux pat rest 0

/-- `re.sub(pat, '', value, flags=re.IGNORECASE)` for a literal word `pat`
(given lower-case): removes every non-overlapping occurrence, scanning left
to right, matching case-insensitively. -/
def stripWordInsens (pat : List Char) (l : List Char) : List Char :=
  stripWordAux pat l 0

/-- The word `billion` as characters. -/
def billionChars : List Char := ['b', 'i', 'l', 'l', 'i', 'o', 'n']

/-- The word `million` as characters. -/
def millionChars : List Char := ['m', 'i', 'l', 'l', 'i', 'o', 'n']

/-- The word `thousand` as characters. -/
def thousandChars : List Char := ['t', 'h', 'o', 'u', 's', 'a', 'n', 'd']

/-- Worker for `stripThousandK`, same skip-counter scheme as
`stripWordAux`. -/
def stripTKAux : List Char → ℕ → List Char
  | [], _ => []
  | _ :: rest, skip + 1 => stripTKAux rest skip
  | c :: rest, 0 =>
    if thousandChars.isPrefixOf (lowerChars (c :: rest)) then
      stripTKAux rest 7
    else if c.toLower = 'k' then
      stripTKAux rest 0
    else
      c :: stripTKAux rest 0

/-- `re.sub(r'(thousand|k)', '', value, flags=re.IGNORECASE)`: the regex
alternation tries `thousand` first, then `k`, at each position, removing
non-overlapping occurrences left to right. -/
def stripThousandK (l : List Char) : List Char :=
  stripTKAux l 0

/-- Characters removed by `re.sub(r'[\$€¥£,\s]', '', value)`: currency
symbols, commas and whitespace. -/
def isStripChar (c : Char) : Bool :=
  c == '$' || c == '€' || c == '¥' || c == '£' || c == ',' || c.isWhitespace

/-! ### Exact decimal parsing (Python `float(value)` on decimal literals)

`parseFloatLit` accepts the decimal-literal grammar of Python's `float`:
optional sign, integer and/or fractional digit runs around an optional dot,
and an optional exponent part; anything else is a parse failure (`None`).
`decLitVal` gives the exact rational value of the literal. -/

/-- Numeric value of an ASCII digit character. -/
def digitVal (c : Char) : ℕ :=
  c.toNat - 48

/-- Value of a big-endian digit-character run. -/
def digitsVal (l : List Char) : ℕ :=
  l.foldl (fun a c => a * 10 + digitVal c) 0

/-- A decimal float literal: signed mantissa digits, number of fractional
digits, and decimal exponent. Its value is `mant / 10^fracLen * 10^exp`. -/
structure DecLit where
  mant : ℤ
  fracLen : ℕ
  exp : ℤ
deriving DecidableEq

/-- Exact rational value of a decimal literal. -/
def decLitVal (d : DecLit) : ℚ :=
  (d.mant : ℚ) / 10 ^ d.fracLen * (10 : ℚ) ^ d.exp

/-- Split an optional leading sign, returning `1` or `-1`. -/
def splitSign (l : List Char) : ℤ × List Char :=
  if l.head? = some '+' then (1, l.tail)
  else if l.head? = some '-' then (-1, l.tail)
  else (1, l)

/-- Parse the exponent part of a float literal: empty means exponent `0`;
otherwise `e`/`E`, an optional sign, and a nonempty digit run consuming the
rest of the input. -/
def parseExpPart (l : List Char) : Option ℤ :=
  if l = [] then some 0
  else if l.head? = some 'e' ∨ l.head? = some 'E' then
    let p := if (l.tail).head? = some '+' then ((1 : ℤ), l.tail.tail)
      else if (l.tail).head? = some '-' then ((-1 : ℤ), l.tail.tail)
      else ((1 : ℤ), l.tail)
    let ds := p.2.takeWhile Char.isDigit
    let rest := p.2.dropWhile Char.isDigit
    if ds = [] ∨ rest ≠ [] then none else some (p.1 * (digitsVal ds : ℤ))
  else none

/-- Parse the part of a float literal after the sign: digit runs around an
optional dot, then the exponent part. -/
def parseAfterSign (sg : ℤ) (t : List Char) : Option DecLit :=
  let ip := t.takeWhile Char.isDigit
  let l2 := t.dropWhile Char.isDigit
  if l2.head? = some '.' then
    let fp := l2.tail.takeWhile Char.isDigit
    let l3 := l2.tail.dropWhile Char.isDigit
    if ip = [] ∧ fp = [] then none
    else
      (parseExpPart l3).map (fun e =>
        ⟨sg * ((digitsVal ip * 10 ^ fp.length + digitsVal fp : ℕ) : ℤ), fp.length, e⟩)
  else
    if ip = [] then none
    else (parseExpPart l2).map (fun e => ⟨sg * (digitsVal ip : ℤ), 0, e⟩)

/-- Parse a full decimal float literal (structural phase). -/
def parseFloatLit (l : List Char) : Option DecLit :=
  parseAfterSign (splitSign l).1 (splitSign l).2

/-- The finite fragment of Python `float(value)`: a decimal literal as an
exact rational. Python's `float` also accepts the non-finite word forms
`nan` / `inf` / `infinity`; those are modelled by `parsePyFloat` below,
on which the full-fidelity normalizer `normalize_numeric_pyfloat` is
built. (PEP-515 `_` digit separators between digits and the rounding of
out-of-range literals such as `1e999` to `inf` remain outside the model;
no claim-relevant input uses a separator, and the `inf` word form
exercises the same non-finite path as an overflowed literal.) -/
def parseFloatChars (l : List Char) : Option ℚ :=
  (parseFloatLit l).map decLitVal

/-! ### The Value Normalizer (`normalize_numeric_value`, transform.py:56-88) -/

/-- The scale factor chosen by the multiplier `if`-chain of
`normalize_numeric_value`: `billion` → 1e9, else `million` → 1e6, else
`thousand` or any `k` (case-insensitive, anywhere) → 1e3, else 1. -/
def scaleFactor (v : List Char) : ℚ :=
  if hasSubstr billionChars (lowerChars v) then 1000000000
  else if hasSubstr millionChars (lowerChars v) then 1000000
  else if hasSubstr thousandChars (lowerChars v) ∨ v.any (fun c => c.toLower == 'k') then 1000
  else 1

/-- The scale factor as a power of ten (structural companion of
`scaleFactor`, same `if`-chain). -/
def scaleExpOf (v : List Char) : ℕ :=
  if hasSubstr billionChars (lowerChars v) then 9
  else if hasSubstr millionChars (lowerChars v) then 6
  else if hasSubstr thousandChars (lowerChars v) ∨ v.any (fun c => c.toLower == 'k') then 3
  else 0

/-- The text handed to the final `float(...)` call: the matched scale word
(or every `k`) removed, then currency symbols, commas and whitespace
stripped. -/
def strippedForm (v : List Char) : List Char :=
  let v2 :=
    if hasSubstr billionChars (lowerChars v) then stripWordInsens billionChars v
    else if hasSubstr millionChars (lowerChars v) then stripWordInsens millionChars v
    else if hasSubstr thousandChars (lowerChars v) ∨ v.any (fun c => c.toLower == 'k') then
      stripThousandK v
    else v
  v2.filter (fun c => !(isStripChar c))

/-- Body of `normalize_numeric_value` after the missing-value guard:
strip, resolve the scale word, remove symbols, parse, multiply. -/
def normalizeChars (l : List Char) : Option ℚ :=
  let v := stripEnds l
  (parseFloatChars (strippedForm v)).map (fun q => q * scaleFactor v)

/-- `normalize_numeric_value` (transform.py:56-88). Inputs `""` and `"-"`
give `None`; the missing-value (`pd.isna`) guard lives at the cell level
(`normalizeCell`). -/
def normalize_numeric_value (value : String) : Option ℚ :=
  if value = "" ∨ value = "-" then none
  else normalizeChars value.data

/-- Truncation toward zero, Python `int()` applied to a float. -/
def ratTruncToZero (q : ℚ) : ℤ :=
  if 0 ≤ q then Int.floor q else -Int.floor (-q)

/-- `normalize_equipment_count` (transform.py:124-129): same normalization,
then `int(...)` truncation; `None` passes through. -/
def normalize_equipment_count (value : String) : Option ℤ :=
  (normalize_numeric_value value).map ratTruncToZero

/-- `extract_numeric` (transform.py:91-102): first run of digits and dots
(`re.search(r'[\d.]+', ...)`), parsed as a float; `None` when there is no
run or the run does not parse. -/
def extract_numeric (value : String) : Option ℚ :=
  if value = "" then none
  else
    let l := value.data.dropWhile (fun c => !(c.isDigit || c == '.'))
    if l = [] then none
    else parseFloatChars (l.takeWhile (fun c => c.isDigit || c == '.'))

/-! ### The non-finite float path (`float` word forms and `int()` errors)

Python's `float` also returns `nan` and `±inf` (for the word forms
`nan` / `inf` / `infinity`, case-insensitive, optionally signed). These
values survive `normalize_numeric_value` — the multiplier keeps them
non-finite and the `try/except ValueError` only guards the parse — and
then `int(numeric)` at transform.py:128, which sits outside any
`try`/`except`, raises `ValueError` on `nan` and `OverflowError` on
`±inf`, escaping to the caller. This layer models that path. -/

/-- A Python float value: a finite (exact rational) value, `nan`, or a
signed infinity. -/
inductive PyFloat where
  | num (q : ℚ)
  | nan
  | inf (neg : Bool)
deriving DecidableEq

/-- Python `float(value)` including the non-finite word forms: a decimal
literal gives its exact value; otherwise `nan` / `inf` / `infinity`
(case-insensitive, optionally signed) give the non-finite values; all
else fails. The two grammars are disjoint, so checking the literal first
is sound. -/
def parsePyFloat (l : List Char) : Option PyFloat :=
  match parseFloatLit l with
  | some d => some (PyFloat.num (decLitVal d))
  | none =>
    let lw := lowerChars l
    if lw = ['n', 'a', 'n'] ∨ lw = ['+', 'n', 'a', 'n'] ∨ lw = ['-', 'n', 'a', 'n'] then
      some PyFloat.nan
    else if lw = ['i', 'n', 'f'] ∨ lw = ['+', 'i', 'n', 'f'] ∨
        lw = ['i', 'n', 'f', 'i', 'n', 'i', 't', 'y'] ∨
        lw = ['+', 'i', 'n', 'f', 'i', 'n', 'i', 't', 'y'] then
      some (PyFloat.inf false)
    else if lw = ['-', 'i', 'n', 'f'] ∨ lw = ['-', 'i', 'n', 'f', 'i', 'n', 'i', 't', 'y'] then
      some (PyFloat.inf true)
    else none

/-- Multiplication by the (positive) scale factor: finite values scale,
`nan` and `±inf` are absorbing. -/
def pyFloatMul (f : PyFloat) (m : ℚ) : PyFloat :=
  match f with
  | PyFloat.num q => PyFloat.num (q * m)
  | PyFloat.nan => PyFloat.nan
  | PyFloat.inf b => PyFloat.inf b

/-- `normalize_numeric_value` (transform.py:56-88) over the full float
domain: identical to `normalize_numeric_value` except that the final
parse also accepts the non-finite word forms. -/
def normalize_numeric_pyfloat (value : String) : Option PyFloat :=
  if value = "" ∨ value = "-" then none
  else
    let v := stripEnds value.data
    (parsePyFloat (strippedForm v)).map (fun f => pyFloatMul f (scaleFactor v))

/-- The exceptions Python `int(float)` raises on non-finite input. -/
inductive PyError where
  | valueError
  | overflowError
deriving DecidableEq

/-- Python `int(...)` on a float: truncation toward zero on finite
values; `ValueError` on `nan` and `OverflowError` on `±inf`. -/
def pyInt (f : PyFloat) : Except PyError ℤ :=
  match f with
  | PyFloat.num q => Except.ok (ratTruncToZero q)
  | PyFloat.nan => Except.error PyError.valueError
  | PyFloat.inf _ => Except.error PyError.overflowError

/-- `normalize_equipment_count` (transform.py:124-129) over the full
float domain: `None` passes through, a parsed float goes to `int(...)` —
whose exception, if any, escapes to the caller (the `try`/`except`
inside `normalize_numeric_value` does not cover this call). -/
def normalize_equipment_pyfloat (value : String) : Except PyError (Option ℤ) :=
  match normalize_numeric_pyfloat value with
  | none => Except.ok none
  | some f => (pyInt f).map some

/-! ### The Column Classifier (`identify_metric_columns`, transform.py:149-177) -/

/-- Equipment keyword list (transform.py:160). -/
def equipment_keywords : List String :=
  ["aircraft", "tank", "helicopter", "submarine", "carrier", "vessel", "ship",
    "artillery", "launcher"]

/-- Personnel keyword list (transform.py:161). -/
def personnel_keywords : List String :=
  ["personnel", "active", "reserve", "manpower", "soldier", "troop"]

/-- Financial keyword list (transform.py:162). -/
def financial_keywords : List String :=
  ["budget", "gdp", "spending", "expenditure", "revenue", "income"]

/-- `any(keyword in col_lower for keyword in kws)`: some keyword is a
substring of the lower-cased column name. -/
def matchesAnyKeyword (kws : List String) (col : String) : Bool :=
  kws.any (fun kw => hasSubstr kw.data (lowerChars col.data))

/-- The four column categories of `identify_metric_columns`. -/
inductive MetricCategory where
  | equipment
  | personnel
  | financial
  | other
deriving DecidableEq

/-- The `if`/`elif` chain of `identify_metric_columns` for one column:
equipment keywords first, then personnel, then financial, else `other`. -/
def categoryOf (col : String) : MetricCategory :=
  if matchesAnyKeyword equipment_keywords col then MetricCategory.equipment
  else if matchesAnyKeyword personnel_keywords col then MetricCategory.personnel
  else if matchesAnyKeyword financial_keywords col then MetricCategory.financial
  else MetricCategory.other

/-- Result of `identify_metric_columns`: the four category buckets, each
in column order. -/
structure ColumnsByType where
  equipment : List String
  personnel : List String
  financial : List String
  other : List String
deriving DecidableEq

/-- `identify_metric_columns` (transform.py:149-177): every column lands in
the bucket of its `categoryOf`, preserving column order. -/
def identify_metric_columns (cols : List String) : ColumnsByType where
  equipment := cols.filter (fun c => categoryOf c = MetricCategory.equipment)
  personnel := cols.filter (fun c => categoryOf c = MetricCategory.personnel)
  financial := cols.filter (fun c => categoryOf c = MetricCategory.financial)
  other := cols.filter (fun c => categoryOf c = MetricCategory.other)

/-! ### Cells and DataFrames -/

/-- One pandas cell: missing (`NaN`/`None`), a raw string, an integer, or a
float (modelled as an exact rational). -/
inductive Cell where
  | na
  | str (s : String)
  | int (n : ℤ)
  | rat (q : ℚ)
deriving DecidableEq

/-- A DataFrame: ordered association list of named columns. Column names
are unique in every frame produced by the pipeline (pandas invariant). -/
abbrev Frame := List (String × List Cell)

/-- `pd.isna` on a cell. -/
def cellIsNa : Cell → Bool
  | Cell.na => true
  | _ => false

/-- Is the cell a raw string? (A cleaned numeric column contains none.) -/
def cellIsStr : Cell → Bool
  | Cell.str _ => true
  | _ => false

/-- Numeric reading of a cell; `none` for missing and for raw strings
(arithmetic on raw strings does not occur in the cleaned numeric columns
the calculator consumes). -/
def cellToOpt : Cell → Option ℚ
  | Cell.na => none
  | Cell.str _ => none
  | Cell.int n => some (n : ℚ)
  | Cell.rat q => some q

/-- `normalize_numeric_value` applied to one cell, as
`df[col].apply(normalize_numeric_value)` does: `pd.isna` input gives
`None` (missing); a string is normalized; a numeric input passes through
`str(value)` whose repr re-parses to the same value, so it is reproduced. -/
def normalizeCell : Cell → Cell
  | Cell.na => Cell.na
  | Cell.str s =>
    match normalize_numeric_value s with
    | none => Cell.na
    | some q => Cell.rat q
  | Cell.int n => Cell.rat (n : ℚ)
  | Cell.rat q => Cell.rat q

/-- `normalize_equipment_count` applied to one cell: as `normalizeCell`,
followed by `int(...)` truncation toward zero. -/
def equipmentCell : Cell → Cell
  | Cell.na => Cell.na
  | Cell.str s =>
    match normalize_equipment_count s with
    | none => Cell.na
    | some n => Cell.int n
  | Cell.int n => Cell.int n
  | Cell.rat q => Cell.int (ratTruncToZero q)

/-- `extract_numeric` applied to one cell: a numeric input is rendered by
`str(...)` first, so the regex `[\d.]+` sees only its digits and dot and
drops any sign (modelled for values whose repr is positional, which covers
the pipeline's rank data). -/
def extractCell : Cell → Cell
  | Cell.na => Cell.na
  | Cell.str s =>
    match extract_numeric s with
    | none => Cell.na
    | some q => Cell.rat q
  | Cell.int n => Cell.rat (n.natAbs : ℚ)
  | Cell.rat q => Cell.rat |q|

/-! ### The Cleaning Stage (`clean_data`, transform.py:180-222) -/

/-- Per-column cleaning, routed by category: equipment columns get the
integer-truncating normalizer, personnel and financial columns the float
normalizer (`normalize_personnel_value` and `normalize_budget_value` are
aliases of `normalize_numeric_value`), `other` columns the loose
first-number extractor — except the excluded names
`country_name` / `url` / `Country` (transform.py:213). -/
def cleanColumn (name : String) (cells : List Cell) : List Cell :=
  match categoryOf name with
  | MetricCategory.equipment => cells.map equipmentCell
  | MetricCategory.personnel => cells.map normalizeCell
  | MetricCategory.financial => cells.map normalizeCell
  | MetricCategory.other =>
    if name = "country_name" ∨ name = "url" ∨ name = "Country" then cells
    else cells.map extractCell

/-- `clean_data` (transform.py:180-222): normalize every column by
category, then restore the preserved `Country` column unmodified
(transform.py:188-192 and 217-219). -/
def clean_data (df : Frame) : Frame :=
  let cleaned := df.map (fun p => (p.1, cleanColumn p.1 p.2))
  match df.lookup "Country" with
  | none => cleaned
  | some orig => cleaned.map (fun p => if p.1 = "Country" then (p.1, orig) else p)

/-! ### The Derived Metrics Calculator (`calculate_derived_metrics`,
transform.py:229-304) -/

/-- Does a cleaned column have numeric dtype (`np.float64`/`np.int64`)?
After cleaning, a column is numeric exactly when no cell is a raw string
and at least one cell is a number (a column that is all-missing, or that
holds any string, has `object` dtype and is skipped). -/
def numericDtype (cells : List Cell) : Bool :=
  cells.all (fun c => !(cellIsStr c)) && cells.any (fun c => (cellToOpt c).isSome)

/-- `fillna(0)` reading of one cell. -/
def fillZeroVal (c : Cell) : ℚ :=
  (cellToOpt c).getD 0

/-- Minimum of a rational list (`Series.min` after `fillna(0)`; the empty
case does not arise: component columns are nonempty). -/
def listMin : List ℚ → ℚ
  | [] => 0
  | x :: xs => xs.foldl min x

/-- Maximum of a rational list. -/
def listMax : List ℚ → ℚ
  | [] => 0
  | x :: xs => xs.foldl max x

/-- Min–max normalization of one component column (transform.py:251-253):
`(x - min) / (max - min + 1)` when the range is positive, else the scalar
`0` broadcast over the column. -/
def minmaxColumn (vals : List ℚ) : List ℚ :=
  let m := listMin vals
  let M := listMax vals
  if 0 < M - m then vals.map (fun x => (x - m) / (M - m + 1))
  else vals.map (fun _ => 0)

/-- Row count of a frame (all columns share one length in a well-formed
frame). -/
def nRows (df : Frame) : ℕ :=
  match df with
  | [] => 0
  | p :: _ => p.2.length

/-- The Power Index component columns (transform.py:244-247): every column
of numeric dtype whose name is not `country_name`, `url`, or (literally)
`Power Index Rank`, in column order. -/
def powerIndexComponents (df : Frame) : List String :=
  (df.filter (fun p =>
    (p.1 != "country_name" && p.1 != "url" && p.1 != "Power Index Rank")
      && numericDtype p.2)).map Prod.fst

/-- The normalized component columns: `fillna(0)` then min–max
normalization, per component column. -/
def componentCols (df : Frame) : List (List ℚ) :=
  (df.filter (fun p =>
    (p.1 != "country_name" && p.1 != "url" && p.1 != "Power Index Rank")
      && numericDtype p.2)).map (fun p => minmaxColumn (p.2.map fillZeroVal))

/-- `Power Index Score` (transform.py:249-254): per record, the sum of its
normalized component values. -/
def powerIndexScore (df : Frame) : List ℚ :=
  (List.range (nRows df)).map (fun i => ((componentCols df).map (fun col => col.getD i 0)).sum)

/-- Minimum of the present values of an optional-rational list
(`Series.min` skips missing; `none` when all are missing). -/
def optMin (l : List (Option ℚ)) : Option ℚ :=
  match l.filterMap id with
  | [] => none
  | x :: xs => some (xs.foldl min x)

/-- The extracted rank column `df["Power Index Rank"].apply(extract_numeric)`
(transform.py:258). -/
def rankCells (df : Frame) : List Cell :=
  ((df.lookup "Power Index Rank").getD []).map extractCell

/-- `Power Index Rank Gap` (transform.py:259): extracted rank minus the
minimum extracted rank; missing ranks stay missing. -/
def rankGapCells (df : Frame) : List Cell :=
  let ranks := (rankCells df).map cellToOpt
  match optMin ranks with
  | none => ranks.map (fun _ => Cell.na)
  | some m =>
    ranks.map (fun r =>
      match r with
      | none => Cell.na
      | some x => Cell.rat (x - m))

/-- Column names of `df` whose lower-cased name contains one of the given
keywords. -/
def colsMatching (kws : List String) (df : Frame) : List String :=
  (df.map Prod.fst).filter (fun c => matchesAnyKeyword kws c)

/-- Population-like columns (transform.py:262). -/
def populationCols (df : Frame) : List String :=
  colsMatching ["population"] df

/-- The per-capita equipment keyword list (transform.py:263-265) — note: a
strict subset of `equipment_keywords`. -/
def perCapitaKws : List String :=
  ["aircraft", "tank", "helicopter", "vessel"]

/-- The `Equipment_Total` keyword list (transform.py:283-285) — again a
subset of `equipment_keywords`, different from `perCapitaKws`. -/
def totalEquipKws : List String :=
  ["aircraft", "tank", "helicopter", "submarine", "carrier"]

/-- Budget-like columns: contain `budget` but not `gdp`
(transform.py:274). -/
def budgetCols (df : Frame) : List String :=
  (df.map Prod.fst).filter (fun c =>
    matchesAnyKeyword ["budget"] c && !(matchesAnyKeyword ["gdp"] c))

/-- GDP-like columns (transform.py:275). -/
def gdpCols (df : Frame) : List String :=
  colsMatching ["gdp"] df

/-- Personnel-total columns: contain `personnel` or `active`
(transform.py:286). -/
def personnelTotalCols (df : Frame) : List String :=
  colsMatching ["personnel", "active"] df

/-- Cells of the (first) column named `name`; `[]` when absent. -/
def colCells (df : Frame) (name : String) : List Cell :=
  (df.lookup name).getD []

/-- Element-wise `a / (b + 1)` over two cell columns; missing propagates
(NaN arithmetic). -/
def divPlusOne (ac bc : List Cell) : List Cell :=
  ac.zipWith (fun a b =>
    match cellToOpt a, cellToOpt b with
    | some x, some y => Cell.rat (x / (y + 1))
    | _, _ => Cell.na) bc

/-- Element-wise `a / (b + 1) * 100` (budget-to-GDP, transform.py:280). -/
def divPlusOneTimes100 (ac bc : List Cell) : List Cell :=
  ac.zipWith (fun a b =>
    match cellToOpt a, cellToOpt b with
    | some x, some y => Cell.rat (x / (y + 1) * 100)
    | _, _ => Cell.na) bc

/-- `df[cols].fillna(0).sum(axis=1)`: per-row sum of the given columns
with missing read as 0. -/
def rowSumFill (cols : List (List Cell)) (n : ℕ) : List Cell :=
  (List.range n).map (fun i =>
    Cell.rat ((cols.map (fun col => fillZeroVal (col.getD i Cell.na))).sum))

/-- `Equipment_Total` cells (transform.py:288-290). -/
def equipmentTotalCells (df : Frame) : List Cell :=
  rowSumFill ((colsMatching totalEquipKws df).map (colCells df)) (nRows df)

/-- `Personnel_Total` cells (transform.py:292-294). -/
def personnelTotalCells (df : Frame) : List Cell :=
  rowSumFill ((personnelTotalCols df).map (colCells df)) (nRows df)

/-- `calculate_derived_metrics` (transform.py:229-304): the derived KPI
frame, columns in assignment order; a derived column is omitted when its
required inputs are absent. The `country_name` source prefers a column of
that name, falling back to `Country` (transform.py:236-238). -/
def calculate_derived_metrics (df : Frame) : Frame :=
  let countryCells :=
    match df.lookup "country_name" with
    | some cs => cs
    | none => (df.lookup "Country").getD []
  let scoreCols : Frame :=
    if powerIndexComponents df ≠ [] then
      [("Power Index Score", (powerIndexScore df).map Cell.rat)]
    else []
  let rankCols : Frame :=
    if (df.lookup "Power Index Rank").isSome then
      [("Power Index Rank", rankCells df), ("Power Index Rank Gap", rankGapCells df)]
    else []
  let pcCols : Frame :=
    match populationCols df with
    | [] => []
    | popc :: _ =>
      (colsMatching perCapitaKws df).map (fun eqc =>
        (eqc ++ "_per_capita", divPlusOne (colCells df eqc) (colCells df popc)))
  let bgCols : Frame :=
    match budgetCols df, gdpCols df with
    | bc :: _, gc :: _ =>
      [("Defense_Budget_to_GDP_Ratio", divPlusOneTimes100 (colCells df bc) (colCells df gc))]
    | _, _ => []
  let eqTotCols : Frame :=
    if colsMatching totalEquipKws df ≠ [] then
      [("Equipment_Total", equipmentTotalCells df)]
    else []
  let pTotCols : Frame :=
    if personnelTotalCols df ≠ [] then
      [("Personnel_Total", personnelTotalCells df)]
    else []
  let spCols : Frame :=
    match budgetCols df, populationCols df with
    | bc :: _, pc :: _ =>
      [("Military_Spending_per_Capita", divPlusOne (colCells df bc) (colCells df pc))]
    | _, _ => []
  ("country_name", countryCells) ::
    (scoreCols ++ rankCols ++ pcCols ++ bgCols ++ eqTotCols ++ pTotCols ++ spCols)

/-! ### Decimal rendering (spec §8's `normalize_to_string`)

Modelled from the spec: the spec's idempotence property
`normalize(normalize_to_string(x)) == normalize(x)` renders a normalized
numeric value back to text (Python's `str(float)`, whose repr re-parses to
the same value). `renderDecimal n k` is the plain positional decimal
string for `n / 10^k`; every binary64 float is such a decimal fraction. -/

/-- Character for the digit `d < 10`. -/
def digitChar (d : ℕ) : Char :=
  Char.ofNat (48 + d)

/-- Little-endian decimal digits of `n`, via fuel (`fuel ≥ n` suffices);
`[]` for `0`. -/
def natDigitsAux : ℕ → ℕ → List Char
  | 0, _ => []
  | _ + 1, 0 => []
  | fuel + 1, n + 1 => digitChar ((n + 1) % 10) :: natDigitsAux fuel ((n + 1) / 10)

/-- Little-endian decimal digits of `n`. -/
def natDigitsLE (n : ℕ) : List Char :=
  natDigitsAux n n

/-- Big-endian decimal digit characters of `n` (`"0"` for zero). -/
def natToChars (n : ℕ) : List Char :=
  if n = 0 then ['0'] else (natDigitsLE n).reverse

/-- Positional decimal rendering of the decimal fraction `n / 10^k`:
optional minus sign, integer digits, and (for `k > 0`) a dot followed by
exactly `k` fraction digits. -/
def renderDecimal (n : ℤ) (k : ℕ) : String :=
  let a := n.natAbs
  let ip := natToChars (a / 10 ^ k)
  let fp := List.replicate (k - (natDigitsLE (a % 10 ^ k)).length) '0' ++
    (natDigitsLE (a % 10 ^ k)).reverse
  String.mk ((if n < 0 then ['-'] else []) ++ ip ++ (if k = 0 then [] else '.' :: fp))

/-! ### Missing-value filling (claim C10) -/

/-- Replace every missing cell by the number `0` in every numeric-dtype
column, leaving other columns (and column names) untouched. -/
def fillNumericNaFrame (df : Frame) : Frame :=
  df.map (fun p =>
    (p.1, if numericDtype p.2 then p.2.map (fun c => if cellIsNa c then Cell.rat 0 else c)
      else p.2))

/-! ### Concrete frames for the counterexamples

Each frame is a cleaned table as the pipeline produces it: the extractor
emits a `GFP Rank` column (scraper.py:207-210), which the Cleaning Stage
leaves numeric, while `calculate_derived_metrics` special-cases only the
literal name `Power Index Rank`. -/

/-- Two records with only a rank-like numeric column (`GFP Rank`). -/
def dfRank1 : Frame :=
  [("Country", [Cell.str "A", Cell.str "B"]),
    ("GFP Rank", [Cell.rat 1, Cell.rat 3])]

/-- Two records with a rank-like numeric column, for the rank-gap claim. -/
def dfRank2 : Frame :=
  [("Country", [Cell.str "A", Cell.str "B"]),
    ("GFP Rank", [Cell.rat 1, Cell.rat 2])]

/-- One record with a population column and an equipment-classified
`Submarines` column. -/
def dfSubs : Frame :=
  [("Country", [Cell.str "A"]),
    ("Population", [Cell.rat 10]),
    ("Submarines", [Cell.rat 4])]

/-- A frame with a `Power Index Rank` column, for the amended rank-gap
witness. -/
def dfPir : Frame :=
  [("Country", [Cell.str "A", Cell.str "B"]),
    ("Power Index Rank", [Cell.int 2, Cell.int 1])]

/-- A frame with a population and an aircraft column, for the per-capita
witness. -/
def dfAir : Frame :=
  [("Country", [Cell.str "A"]),
    ("Population", [Cell.rat 9]),
    ("Total Aircraft", [Cell.rat 40])]

/-- A frame whose identity column holds numeric-looking strings, for the
identity-preservation witness. -/
def dfIdent : Frame :=
  [("Country", [Cell.str "123", Cell.str "France"]),
    ("Total Aircraft", [Cell.str "1,300", Cell.str "900"])]

/-- The characters a positional decimal rendering may contain. -/
def allowedChars : List Char :=
  ['0', '1', '2', '3', '4', '5', '6', '7', '8', '9', '.', '-']

/-! ### Evaluation bridge lemmas -/

theorem scaleFactor_eq_pow (v : List Char) : scaleFactor v = 10 ^ scaleExpOf v := by
  unfold scaleFactor scaleExpOf
  split_ifs <;> norm_num

theorem normalizeChars_eq_struct (l : List Char) :
    normalizeChars l = (parseFloatLit (strippedForm (stripEnds l))).map
      (fun d => decLitVal d * 10 ^ scaleExpOf (stripEnds l)) := by
  unfold normalizeChars parseFloatChars
  rw [Option.map_map, scaleFactor_eq_pow]
  rfl

theorem normalize_eq_struct (s : String) (h : ¬(s = "" ∨ s = "-")) :
    normalize_numeric_value s = (parseFloatLit (strippedForm (stripEnds s.data))).map
      (fun d => decLitVal d * 10 ^ scaleExpOf (stripEnds s.data)) := by
  unfold normalize_numeric_value
  rw [if_neg h]
  exact normalizeChars_eq_struct _

/-! ### Generic list lemmas -/

theorem lookup_map_keyed (g : String → List Cell → List Cell) (df : Frame) (k : String) :
    (df.map (fun p => (p.1, g p.1 p.2))).lookup k = (df.lookup k).map (g k) := by
  induction df with
  | nil => rfl
  | cons p tl ih =>
    simp only [List.map_cons, List.lookup]
    rcases h : k == p.1 with _ | _
    · simpa [h] using ih
    · simp only [h]
      simp only [beq_iff_eq] at h
      subst h
      rfl

theorem lookup_restore (l : Frame) (orig : List Cell) :
    (l.map (fun p => if p.1 = "Country" then (p.1, orig) else p)).lookup "Country" =
      (l.lookup "Country").map (fun _ => orig) := by
  induction l with
  | nil => rfl
  | cons p tl ih =>
    obtain ⟨nm, cells⟩ := p
    by_cases h : nm = "Country"
    · subst h
      simp [List.lookup_cons]
    · have hb : ("Country" == nm) = false := by simp [Ne.symm h]
      have hmap : (fun p : String × List Cell => if p.1 = "Country" then (p.1, orig) else p)
          (nm, cells) = (nm, cells) := by simp [h]
      simp only [List.map_cons, hmap, List.lookup_cons, hb, ih]

theorem takeWhile_all_true (p : Char → Bool) (l : List Char) (h : ∀ c ∈ l, p c = true) :
    l.takeWhile p = l := by
  induction l with
  | nil => rfl
  | cons c rest ih =>
    simp only [List.takeWhile_cons, h c (List.mem_cons_self c rest)]
    exact congrArg (c :: ·) (ih (fun x hx => h x (List.mem_cons_of_mem c hx)))

theorem dropWhile_all_true (p : Char → Bool) (l : List Char) (h : ∀ c ∈ l, p c = true) :
    l.dropWhile p = [] := by
  induction l with
  | nil => rfl
  | cons c rest ih =>
    simp only [List.dropWhile_cons, h c (List.mem_cons_self c rest)]
    exact ih (fun x hx => h x (List.mem_cons_of_mem c hx))

theorem takeWhile_append_stop (ip : List Char) (c : Char) (rest : List Char)
    (h1 : ∀ x ∈ ip, Char.isDigit x = true) (hc : Char.isDigit c = false) :
    (ip ++ c :: rest).takeWhile Char.isDigit = ip ∧
      (ip ++ c :: rest).dropWhile Char.isDigit = c :: rest := by
  induction ip with
  | nil => simp [List.takeWhile_cons, List.dropWhile_cons, hc]
  | cons a tl ih =>
    have ha : Char.isDigit a = true := h1 a (List.mem_cons_self a tl)
    have ih2 := ih (fun x hx => h1 x (List.mem_cons_of_mem a hx))
    simp only [List.cons_append, List.takeWhile_cons, List.dropWhile_cons, ha]
    exact ⟨congrArg (a :: ·) ih2.1, ih2.2⟩

theorem dropWhile_eq_self_of_head (p : Char → Bool) (c : Char) (l : List Char)
    (hc : p c = false) : (c :: l).dropWhile p = c :: l := by
  simp [List.dropWhile_cons, hc]

theorem filter_eq_self_of_all (p : Char → Bool) (l : List Char) (h : ∀ c ∈ l, p c = true) :
    l.filter p = l :=
  List.filter_eq_self.mpr h

theorem hasSubstr_head_mem (p : Char) (pt : List Char) (l : List Char)
    (h : hasSubstr (p :: pt) l = true) : p ∈ l := by
  induction l with
  | nil => simp [hasSubstr, List.isEmpty] at h
  | cons c rest ih =>
    simp only [hasSubstr, Bool.or_eq_true] at h
    rcases h with h | h
    · rw [List.isPrefixOf_cons₂] at h
      have : p = c := by
        have := (Bool.and_eq_true _ _).mp h
        exact beq_iff_eq.mp this.1
      exact this ▸ List.mem_cons_self c rest
    · exact List.mem_cons_of_mem c (ih h)

/-! ### Digit-character lemmas -/

theorem digitChar_mem (d : ℕ) (h : d < 10) :
    digitChar d ∈ allowedChars ∧ Char.isDigit (digitChar d) = true ∧
      digitVal (digitChar d) = d := by
  interval_cases d <;> exact ⟨by decide, by decide, by decide⟩

theorem allowed_char_facts (c : Char) (h : c ∈ allowedChars) :
    Char.toLower c = c ∧ isStripChar c = false ∧ Char.isWhitespace c = false ∧
      c ≠ 'b' ∧ c ≠ 'm' ∧ c ≠ 't' ∧ c ≠ 'k' := by
  fin_cases h <;>
    exact ⟨by decide, by decide, by decide, by decide, by decide, by decide, by decide⟩

theorem digitsVal_append_one (l : List Char) (c : Char) :
    digitsVal (l ++ [c]) = 10 * digitsVal l + digitVal c := by
  unfold digitsVal
  rw [List.foldl_append]
  simp [Nat.mul_comm]

theorem natDigitsAux_spec (fuel n : ℕ) (h : n ≤ fuel) :
    digitsVal (natDigitsAux fuel n).reverse = n ∧
      (∀ c ∈ natDigitsAux fuel n, c ∈ allowedChars ∧ Char.isDigit c = true) := by
  induction fuel generalizing n with
  | zero =>
    have : n = 0 := Nat.le_zero.mp h
    subst this
    exact ⟨rfl, by simp [natDigitsAux]⟩
  | succ f ih =>
    match n with
    | 0 => exact ⟨rfl, by simp [natDigitsAux]⟩
    | m + 1 =>
      have hdiv : (m + 1) / 10 ≤ f := by
        have h1 : (m + 1) / 10 < m + 1 := Nat.div_lt_self (Nat.succ_pos m) (by norm_num)
        omega
      have ih2 := ih ((m + 1) / 10) hdiv
      have hmod : (m + 1) % 10 < 10 := Nat.mod_lt _ (by norm_num)
      have hd := digitChar_mem ((m + 1) % 10) hmod
      constructor
      · show digitsVal ((digitChar ((m + 1) % 10) :: natDigitsAux f ((m + 1) / 10)).reverse) = m + 1
        rw [List.reverse_cons, digitsVal_append_one, ih2.1, hd.2.2]
        omega
      · intro c hc
        rcases List.mem_cons.mp hc with hc | hc
        · exact hc ▸ ⟨hd.1, hd.2.1⟩
        · exact ih2.2 c hc

theorem natDigitsLE_spec (n : ℕ) :
    digitsVal (natDigitsLE n).reverse = n ∧
      (∀ c ∈ natDigitsLE n, c ∈ allowedChars ∧ Char.isDigit c = true) :=
  natDigitsAux_spec n n (Nat.le_refl n)

theorem natDigitsAux_length (fuel n k : ℕ) (h : n ≤ fuel) (hk : n < 10 ^ k) :
    (natDigitsAux fuel n).length ≤ k := by
  induction fuel generalizing n k with
  | zero =>
    have : n = 0 := Nat.le_zero.mp h
    subst this
    simp [natDigitsAux]
  | succ f ih =>
    match n with
    | 0 => simp [natDigitsAux]
    | m + 1 =>
      have hkpos : 0 < k := by
        by_contra hc
        have hk0 : k = 0 := by omega
        rw [hk0, pow_zero, Nat.lt_one_iff] at hk
        exact absurd hk (Nat.succ_ne_zero m)
      have hdiv : (m + 1) / 10 ≤ f := by
        have h1 : (m + 1) / 10 < m + 1 := Nat.div_lt_self (Nat.succ_pos m) (by norm_num)
        omega
      have hdivk : (m + 1) / 10 < 10 ^ (k - 1) := by
        have h10 : (10 : ℕ) ^ k = 10 * 10 ^ (k - 1) := by
          conv_lhs => rw [show k = 1 + (k - 1) by omega]
          rw [pow_add, pow_one]
        exact Nat.div_lt_of_lt_mul (by omega)
      have := ih ((m + 1) / 10) (k - 1) hdiv hdivk
      show (digitChar ((m + 1) % 10) :: natDigitsAux f ((m + 1) / 10)).length ≤ k
      simp only [List.length_cons]
      omega

theorem natToChars_spec (n : ℕ) :
    digitsVal (natToChars n) = n ∧ natToChars n ≠ [] ∧
      (∀ c ∈ natToChars n, c ∈ allowedChars ∧ Char.isDigit c = true) := by
  unfold natToChars
  by_cases h : n = 0
  · subst h
    simp only [if_pos rfl]
    exact ⟨by decide, by decide, by intro c hc; simp at hc; subst hc; exact ⟨by decide, by decide⟩⟩
  · simp only [if_neg h]
    have hs := natDigitsLE_spec n
    refine ⟨hs.1, ?_, ?_⟩
    · intro hc
      have h0 := hs.1
      rw [hc] at h0
      simp [digitsVal] at h0
      exact h h0.symm
    · intro c hc
      exact hs.2 c (List.mem_reverse.mp hc)

/-! ### Parse-of-rendered-string lemmas -/

theorem digitsVal_foldl_from (a : ℕ) (l : List Char) :
    l.foldl (fun b c => b * 10 + digitVal c) a = a * 10 ^ l.length + digitsVal l := by
  induction l generalizing a with
  | nil => simp [digitsVal]
  | cons c rest ih =>
    show List.foldl _ (a * 10 + digitVal c) rest = _
    rw [ih (a * 10 + digitVal c)]
    have h0 : digitsVal (c :: rest) = (digitVal c) * 10 ^ rest.length + digitsVal rest := by
      show List.foldl _ (0 * 10 + digitVal c) rest = _
      rw [ih (0 * 10 + digitVal c)]
      ring
    rw [h0, List.length_cons]
    ring

theorem digitsVal_append (l1 l2 : List Char) :
    digitsVal (l1 ++ l2) = digitsVal l1 * 10 ^ l2.length + digitsVal l2 := by
  unfold digitsVal
  rw [List.foldl_append]
  exact digitsVal_foldl_from _ _

theorem digitsVal_replicate_zero (j : ℕ) :
    digitsVal (List.replicate j '0') = 0 := by
  induction j with
  | zero => rfl
  | succ m ih =>
    rw [List.replicate_succ]
    show List.foldl _ (0 * 10 + digitVal '0') _ = 0
    have : (0 * 10 + digitVal '0') = 0 := by decide
    rw [this]
    exact ih

theorem splitSign_digit (c : Char) (l : List Char) (h : Char.isDigit c = true) :
    splitSign (c :: l) = (1, c :: l) := by
  have h1 : c ≠ '+' := by intro hc; subst hc; exact absurd h (by decide)
  have h2 : c ≠ '-' := by intro hc; subst hc; exact absurd h (by decide)
  unfold splitSign
  simp [h1, h2]

theorem splitSign_neg (l : List Char) : splitSign ('-' :: l) = (-1, l) := by
  unfold splitSign
  simp

theorem parseExpPart_nil : parseExpPart [] = some 0 := by
  unfold parseExpPart
  simp

theorem parseAfterSign_digits_dot (sg : ℤ) (ip fp : List Char) (hne : ip ≠ [])
    (hip : ∀ c ∈ ip, Char.isDigit c = true) (hfp : ∀ c ∈ fp, Char.isDigit c = true) :
    parseAfterSign sg (ip ++ '.' :: fp) =
      some ⟨sg * ((digitsVal ip * 10 ^ fp.length + digitsVal fp : ℕ) : ℤ), fp.length, 0⟩ := by
  have hsplit := takeWhile_append_stop ip '.' fp hip (by decide)
  unfold parseAfterSign
  rw [hsplit.1, hsplit.2]
  simp only [List.head?_cons, List.tail_cons, if_true]
  rw [takeWhile_all_true Char.isDigit fp hfp, dropWhile_all_true Char.isDigit fp hfp]
  rw [if_neg (by intro hc; exact hne hc.1)]
  rw [parseExpPart_nil]
  rfl

theorem parseAfterSign_digits_nodot (sg : ℤ) (ip : List Char) (hne : ip ≠ [])
    (hip : ∀ c ∈ ip, Char.isDigit c = true) :
    parseAfterSign sg ip = some ⟨sg * (digitsVal ip : ℤ), 0, 0⟩ := by
  unfold parseAfterSign
  rw [takeWhile_all_true Char.isDigit ip hip, dropWhile_all_true Char.isDigit ip hip]
  simp only [List.head?_nil]
  rw [if_neg (by simp)]
  rw [if_neg hne, parseExpPart_nil]
  rfl

theorem dropWhile_eq_self_all (p : Char → Bool) (l : List Char)
    (h : ∀ c ∈ l, p c = false) : l.dropWhile p = l := by
  cases l with
  | nil => rfl
  | cons c rest => exact dropWhile_eq_self_of_head p c rest (h c (List.mem_cons_self c rest))

theorem stripEnds_id (l : List Char) (h : ∀ c ∈ l, Char.isWhitespace c = false) :
    stripEnds l = l := by
  unfold stripEnds
  rw [dropWhile_eq_self_all _ l h]
  rw [dropWhile_eq_self_all _ l.reverse (fun c hc => h c (List.mem_reverse.mp hc))]
  exact List.reverse_reverse l

theorem lowerChars_id_of_allowed (l : List Char) (h : ∀ c ∈ l, c ∈ allowedChars) :
    lowerChars l = l := by
  unfold lowerChars
  rw [List.map_congr_left (fun c hc => (allowed_char_facts c (h c hc)).1)]
  exact List.map_id l

theorem hasSubstr_false_of_allowed (p : Char) (pt : List Char) (l : List Char)
    (h : ∀ c ∈ l, c ∈ allowedChars) (hp : p ∉ allowedChars) :
    hasSubstr (p :: pt) l = false := by
  by_contra hc
  have : hasSubstr (p :: pt) l = true := by
    revert hc
    cases hasSubstr (p :: pt) l <;> simp
  exact hp (h p (hasSubstr_head_mem p pt l this))

theorem anyK_false_of_allowed (l : List Char) (h : ∀ c ∈ l, c ∈ allowedChars) :
    (l.any fun c => c.toLower == 'k') = false := by
  rw [List.any_eq_false]
  intro c hc
  have hf := allowed_char_facts c (h c hc)
  rw [hf.1]
  simp [hf.2.2.2.2.2.2]

theorem scaleExpOf_allowed (l : List Char) (h : ∀ c ∈ l, c ∈ allowedChars) :
    scaleExpOf l = 0 := by
  unfold scaleExpOf
  rw [lowerChars_id_of_allowed l h]
  rw [show billionChars = 'b' :: ['i', 'l', 'l', 'i', 'o', 'n'] from rfl,
    hasSubstr_false_of_allowed _ _ l h (by decide)]
  rw [show millionChars = 'm' :: ['i', 'l', 'l', 'i', 'o', 'n'] from rfl,
    hasSubstr_false_of_allowed _ _ l h (by decide)]
  rw [show thousandChars = 't' :: ['h', 'o', 'u', 's', 'a', 'n', 'd'] from rfl,
    hasSubstr_false_of_allowed _ _ l h (by decide)]
  rw [anyK_false_of_allowed l h]
  simp

theorem strippedForm_id_of_allowed (l : List Char) (h : ∀ c ∈ l, c ∈ allowedChars) :
    strippedForm l = l := by
  unfold strippedForm
  rw [lowerChars_id_of_allowed l h]
  rw [show billionChars = 'b' :: ['i', 'l', 'l', 'i', 'o', 'n'] from rfl,
    hasSubstr_false_of_allowed _ _ l h (by decide)]
  rw [show millionChars = 'm' :: ['i', 'l', 'l', 'i', 'o', 'n'] from rfl,
    hasSubstr_false_of_allowed _ _ l h (by decide)]
  rw [show thousandChars = 't' :: ['h', 'o', 'u', 's', 'a', 'n', 'd'] from rfl,
    hasSubstr_false_of_allowed _ _ l h (by decide)]
  rw [anyK_false_of_allowed l h]
  simp only [Bool.false_eq_true, or_self, if_false]
  exact filter_eq_self_of_all _ l
    (fun c hc => by rw [(allowed_char_facts c (h c hc)).2.1]; rfl)

theorem parseFloatLit_render (n : ℤ) (k : ℕ) :
    parseFloatLit (renderDecimal n k).data = some ⟨n, k, 0⟩ ∧
      (∀ c ∈ (renderDecimal n k).data, c ∈ allowedChars) := by
  have hpow : 0 < (10 : ℕ) ^ k := pow_pos (by norm_num) k
  have hmod : n.natAbs % 10 ^ k < 10 ^ k := Nat.mod_lt _ hpow
  have hdlen : (natDigitsLE (n.natAbs % 10 ^ k)).length ≤ k :=
    natDigitsAux_length _ _ k (Nat.le_refl _) hmod
  have hfpD := natDigitsLE_spec (n.natAbs % 10 ^ k)
  have hipS := natToChars_spec (n.natAbs / 10 ^ k)
  set q := n.natAbs / 10 ^ k with hq
  set ip := natToChars q with hipdef
  set fp := List.replicate (k - (natDigitsLE (n.natAbs % 10 ^ k)).length) '0' ++
    (natDigitsLE (n.natAbs % 10 ^ k)).reverse with hfpdef
  have hfp_chars : ∀ c ∈ fp, c ∈ allowedChars ∧ Char.isDigit c = true := by
    intro c hc
    rcases List.mem_append.mp hc with hc | hc
    · have h0 : c = '0' := List.eq_of_mem_replicate hc
      subst h0
      exact ⟨by decide, by decide⟩
    · exact hfpD.2 c (List.mem_reverse.mp hc)
  have hfp_len : fp.length = k := by
    rw [hfpdef, List.length_append, List.length_replicate, List.length_reverse]
    omega
  have hfp_val : digitsVal fp = n.natAbs % 10 ^ k := by
    rw [hfpdef, digitsVal_append, digitsVal_replicate_zero, Nat.zero_mul, Nat.zero_add]
    exact hfpD.1
  have hdata : (renderDecimal n k).data =
      (if n < 0 then ['-'] else []) ++ ip ++ (if k = 0 then [] else '.' :: fp) := rfl
  have hmant : (digitsVal ip * 10 ^ fp.length + digitsVal fp : ℕ) = n.natAbs := by
    rw [hipS.1, hfp_len, hfp_val, hq, Nat.mul_comm]
    exact Nat.div_add_mod n.natAbs (10 ^ k)
  have habs : ∀ sg : ℤ, (sg = 1 ∧ 0 ≤ n) ∨ (sg = -1 ∧ n < 0) → sg * (n.natAbs : ℤ) = n := by
    rintro sg (⟨h1, h2⟩ | ⟨h1, h2⟩)
    · rw [h1, one_mul, Int.natAbs_of_nonneg h2]
    · rw [h1, Int.ofNat_natAbs_of_nonpos (le_of_lt h2)]
      ring
  constructor
  · rw [hdata]
    by_cases hn : n < 0
    · rw [if_pos hn]
      by_cases hk : k = 0
      · rw [if_pos hk, List.append_nil]
        show parseFloatLit ('-' :: ip) = _
        unfold parseFloatLit
        rw [splitSign_neg]
        rw [parseAfterSign_digits_nodot (-1) ip hipS.2.1 (fun c hc => (hipS.2.2 c hc).2)]
        have hq0 : q = n.natAbs := by rw [hq, hk, pow_zero, Nat.div_one]
        rw [hipS.1, hq0]
        have := habs (-1) (Or.inr ⟨rfl, hn⟩)
        simp only [this, hk]
      · rw [if_neg hk]
        show parseFloatLit ('-' :: (ip ++ '.' :: fp)) = _
        unfold parseFloatLit
        rw [splitSign_neg]
        rw [parseAfterSign_digits_dot (-1) ip fp hipS.2.1
          (fun c hc => (hipS.2.2 c hc).2) (fun c hc => (hfp_chars c hc).2)]
        rw [hmant, habs (-1) (Or.inr ⟨rfl, hn⟩), hfp_len]
    · rw [if_neg hn, List.nil_append]
      obtain ⟨c, tl, hct⟩ := List.exists_cons_of_ne_nil hipS.2.1
      have hcd : Char.isDigit c = true := (hipS.2.2 c (hct ▸ List.mem_cons_self c tl)).2
      by_cases hk : k = 0
      · rw [if_pos hk, List.append_nil]
        unfold parseFloatLit
        rw [hct, splitSign_digit c tl hcd, ← hct]
        rw [parseAfterSign_digits_nodot 1 ip hipS.2.1 (fun x hx => (hipS.2.2 x hx).2)]
        have hq0 : q = n.natAbs := by rw [hq, hk, pow_zero, Nat.div_one]
        rw [hipS.1, hq0]
        rw [habs 1 (Or.inl ⟨rfl, not_lt.mp hn⟩), hk]
      · rw [if_neg hk]
        unfold parseFloatLit
        rw [hct, List.cons_append, splitSign_digit c (tl ++ '.' :: fp) hcd,
          ← List.cons_append, ← hct]
        rw [parseAfterSign_digits_dot 1 ip fp hipS.2.1
          (fun x hx => (hipS.2.2 x hx).2) (fun x hx => (hfp_chars x hx).2)]
        rw [hmant, habs 1 (Or.inl ⟨rfl, not_lt.mp hn⟩), hfp_len]
  · rw [hdata]
    intro c hc
    rcases List.mem_append.mp hc with hc | hc
    · rcases List.mem_append.mp hc with hc | hc
      · rcases (if n < 0 then ['-'] else []).eq_nil_or_concat with h | _
        · split at hc
          · simp at hc
            subst hc
            decide
          · simp at hc
        · split at hc
          · simp at hc
            subst hc
            decide
          · simp at hc
      · exact (hipS.2.2 c hc).1
    · split at hc
      · simp at hc
      · rcases List.mem_cons.mp hc with hc | hc
        · subst hc
          decide
        · exact (hfp_chars c hc).1

theorem normalize_renderDecimal (n : ℤ) (k : ℕ) :
    normalize_numeric_value (renderDecimal n k) = some ((n : ℚ) / 10 ^ k) := by
  obtain ⟨hparse, hchars⟩ := parseFloatLit_render n k
  have hne : ¬(renderDecimal n k = "" ∨ renderDecimal n k = "-") := by
    have h1 : parseFloatLit ("" : String).data = none := by decide
    have h2 : parseFloatLit ("-" : String).data = none := by decide
    intro h
    rcases h with h | h
    · rw [h, h1] at hparse
      exact Option.noConfusion hparse
    · rw [h, h2] at hparse
      exact Option.noConfusion hparse
  rw [normalize_eq_struct _ hne]
  rw [stripEnds_id _ (fun c hc => (allowed_char_facts c (hchars c hc)).2.2.1)]
  rw [strippedForm_id_of_allowed _ hchars, hparse,
    scaleExpOf_allowed _ (fun c hc => hchars c hc)]
  unfold decLitVal
  norm_num

/-! ### Fold-min/max lemmas -/

theorem foldl_min_le (x : ℚ) (xs : List ℚ) : ∀ y ∈ x :: xs, xs.foldl min x ≤ y := by
  induction xs generalizing x with
  | nil =>
    intro y hy
    rcases List.mem_cons.mp hy with h | h
    · exact h ▸ le_refl x
    · simp at h
  | cons a tl ih =>
    intro y hy
    rcases List.mem_cons.mp hy with h | h
    · subst h
      calc tl.foldl min (min y a) ≤ min y a := ih (min y a) _ (List.mem_cons_self _ _)
        _ ≤ y := min_le_left y a
    · rcases List.mem_cons.mp h with h | h
      · subst h
        calc tl.foldl min (min x y) ≤ min x y := ih (min x y) _ (List.mem_cons_self _ _)
          _ ≤ y := min_le_right x y
      · exact ih (min x a) y (List.mem_cons_of_mem _ h)

theorem foldl_min_mem (x : ℚ) (xs : List ℚ) : xs.foldl min x ∈ x :: xs := by
  induction xs generalizing x with
  | nil => exact List.mem_cons_self x []
  | cons a tl ih =>
    have h := ih (min x a)
    rcases List.mem_cons.mp h with h | h
    · rcases min_choice x a with hc | hc
      · show List.foldl min (min x a) tl ∈ x :: a :: tl
        rw [h, hc]
        exact List.mem_cons_self x (a :: tl)
      · show List.foldl min (min x a) tl ∈ x :: a :: tl
        rw [h, hc]
        exact List.mem_cons_of_mem x (List.mem_cons_self a tl)
    · exact List.mem_cons_of_mem x (List.mem_cons_of_mem a h)

theorem foldl_max_ge (x : ℚ) (xs : List ℚ) : ∀ y ∈ x :: xs, y ≤ xs.foldl max x := by
  induction xs generalizing x with
  | nil =>
    intro y hy
    rcases List.mem_cons.mp hy with h | h
    · exact h ▸ le_refl x
    · simp at h
  | cons a tl ih =>
    intro y hy
    rcases List.mem_cons.mp hy with h | h
    · subst h
      calc y ≤ max y a := le_max_left y a
        _ ≤ tl.foldl max (max y a) := ih (max y a) _ (List.mem_cons_self _ _)
    · rcases List.mem_cons.mp h with h | h
      · subst h
        calc y ≤ max x y := le_max_right x y
          _ ≤ tl.foldl max (max x y) := ih (max x y) _ (List.mem_cons_self _ _)
      · exact ih (max x a) y (List.mem_cons_of_mem _ h)

theorem foldl_max_mem (x : ℚ) (xs : List ℚ) : xs.foldl max x ∈ x :: xs := by
  induction xs generalizing x with
  | nil => exact List.mem_cons_self x []
  | cons a tl ih =>
    have h := ih (max x a)
    rcases List.mem_cons.mp h with h | h
    · rcases max_choice x a with hc | hc
      · show List.foldl max (max x a) tl ∈ x :: a :: tl
        rw [h, hc]
        exact List.mem_cons_self x (a :: tl)
      · show List.foldl max (max x a) tl ∈ x :: a :: tl
        rw [h, hc]
        exact List.mem_cons_of_mem x (List.mem_cons_self a tl)
    · exact List.mem_cons_of_mem x (List.mem_cons_of_mem a h)

theorem listMin_spec (vals : List ℚ) (h : vals ≠ []) :
    listMin vals ∈ vals ∧ ∀ x ∈ vals, listMin vals ≤ x := by
  match vals with
  | [] => exact absurd rfl h
  | v :: rest =>
    exact ⟨foldl_min_mem v rest, foldl_min_le v rest⟩

theorem listMax_spec (vals : List ℚ) (h : vals ≠ []) :
    listMax vals ∈ vals ∧ ∀ x ∈ vals, x ≤ listMax vals := by
  match vals with
  | [] => exact absurd rfl h
  | v :: rest =>
    exact ⟨foldl_max_mem v rest, foldl_max_ge v rest⟩

/-! ### Concrete-evaluation helper -/

theorem normalize_eval (s : String) (d : DecLit) (e : ℕ) (q : ℚ)
    (h0 : ¬(s = "" ∨ s = "-"))
    (h1 : parseFloatLit (strippedForm (stripEnds s.data)) = some d)
    (h2 : scaleExpOf (stripEnds s.data) = e)
    (h3 : decLitVal d * 10 ^ e = q) :
    normalize_numeric_value s = some q := by
  rw [normalize_eq_struct s h0, h1, h2]
  simp [h3]

/-! ### Claim theorems: the Value Normalizer -/

/-- Claim C2, counterexample: the input `"k1"` contains neither `thousand`
nor a trailing `k` (its last character is `'1'`), yet the normalizer scales
it by 1000: `normalize("k1") = 1000.0`, not `1.0` — the code multiplies by
1e3 whenever any `k` occurs anywhere, refuting the "trailing 'k'"
condition of the claim. -/
theorem C2_counterexample :
    normalize_numeric_value "k1" = some 1000 ∧
    hasSubstr thousandChars (lowerChars "k1".data) = false ∧
    "k1".data.getLast? = some '1' := by
  refine ⟨?_, by decide, by decide⟩
  exact normalize_eval "k1" ⟨1, 0, 0⟩ 3 1000 (by decide) (by decide) (by decide)
    (by unfold decLitVal; norm_num)

/-- Claim C2 (amended): the normalizer multiplies by 1e9 for `billion`, by
1e6 for `million` (case-insensitively), and by 1e3 when the text contains
`thousand` or any `k` (case-insensitively, anywhere — not only trailing);
the matched scale word (or every `k`) is stripped, then currency symbols,
commas and whitespace, before the final parse. Consequently
`normalize("2.3 Billion") = 2300000000.0`, `normalize("1,234") = 1234.0`,
`normalize("2.5k") = 2500.0`, and a non-trailing `k` also scales:
`normalize("k1") = 1000.0`. -/
theorem C2_scale_words :
    normalize_numeric_value "2.3 Billion" = some 2300000000 ∧
    normalize_numeric_value "1,234" = some 1234 ∧
    normalize_numeric_value "2.5k" = some 2500 ∧
    normalize_numeric_value "1.5 Million" = some 1500000 ∧
    (∀ s : String, ¬(s = "" ∨ s = "-") →
      hasSubstr billionChars (lowerChars (stripEnds s.data)) = false →
      hasSubstr millionChars (lowerChars (stripEnds s.data)) = false →
      (hasSubstr thousandChars (lowerChars (stripEnds s.data)) = true ∨
        (stripEnds s.data).any (fun c => c.toLower == 'k') = true) →
      normalize_numeric_value s =
        (parseFloatChars ((stripThousandK (stripEnds s.data)).filter
          (fun c => !(isStripChar c)))).map (fun q => q * 1000)) := by
  refine ⟨?_, ?_, ?_, ?_, ?_⟩
  · exact normalize_eval "2.3 Billion" ⟨23, 1, 0⟩ 9 2300000000 (by decide) (by decide)
      (by decide) (by unfold decLitVal; norm_num)
  · exact normalize_eval "1,234" ⟨1234, 0, 0⟩ 0 1234 (by decide) (by decide)
      (by decide) (by unfold decLitVal; norm_num)
  · exact normalize_eval "2.5k" ⟨25, 1, 0⟩ 3 2500 (by decide) (by decide)
      (by decide) (by unfold decLitVal; norm_num)
  · exact normalize_eval "1.5 Million" ⟨15, 1, 0⟩ 6 1500000 (by decide) (by decide)
      (by decide) (by unfold decLitVal; norm_num)
  · intro s h0 hb hm hk
    have hsf : scaleFactor (stripEnds s.data) = 1000 := by
      simp only [scaleFactor]
      rw [hb, hm]
      simp only [Bool.false_eq_true, if_false]
      rw [if_pos hk]
    have hform : strippedForm (stripEnds s.data) =
        (stripThousandK (stripEnds s.data)).filter (fun c => !(isStripChar c)) := by
      simp only [strippedForm]
      rw [hb, hm]
      simp only [Bool.false_eq_true, if_false]
      rw [if_pos hk]
    unfold normalize_numeric_value
    rw [if_neg h0]
    simp only [normalizeChars]
    rw [hsf, hform]

/-- Claim C2, witness for the amended scale rule at the concrete input
`"5k"`. -/
theorem C2_scale_words_witness :
    normalize_numeric_value "5k" =
      (parseFloatChars ((stripThousandK (stripEnds "5k".data)).filter
        (fun c => !(isStripChar c)))).map (fun q => q * 1000) :=
  C2_scale_words.2.2.2.2 "5k" (by decide) (by decide) (by decide) (Or.inr (by decide))

/-- Claim C3: `normalize_equipment_count` applies the same normalization as
the floating normalizer, then truncates toward zero (`int(...)`):
whenever the float normalizer yields `q`, the equipment normalizer yields
an integer `z` with `|z| ≤ |q| < |z| + 1` and the sign of `q`; whenever it
yields absent, so does the equipment normalizer. In particular
`normalize_equipment_count "12.9 Thousand" = 12900` exactly
(`float("12.9") * 1000 == 12900.0` holds exactly in binary64 as well). -/
theorem C3_equipment_truncation :
    normalize_equipment_count "12.9 Thousand" = some 12900 ∧
    (∀ (s : String) (q : ℚ), normalize_numeric_value s = some q →
      ∃ z : ℤ, normalize_equipment_count s = some z ∧
        |(z : ℚ)| ≤ |q| ∧ |q| < |(z : ℚ)| + 1 ∧ (0 ≤ q → 0 ≤ z) ∧ (q ≤ 0 → z ≤ 0)) ∧
    (∀ s : String, normalize_numeric_value s = none →
      normalize_equipment_count s = none) := by
  refine ⟨?_, ?_, ?_⟩
  · have hq : normalize_numeric_value "12.9 Thousand" = some 12900 :=
      normalize_eval "12.9 Thousand" ⟨129, 1, 0⟩ 3 12900 (by decide) (by decide)
        (by decide) (by unfold decLitVal; norm_num)
    unfold normalize_equipment_count
    rw [hq]
    have ht : ratTruncToZero 12900 = 12900 := by
      unfold ratTruncToZero
      rw [if_pos (by norm_num)]
      exact Int.floor_eq_iff.mpr ⟨by norm_num, by norm_num⟩
    simp [ht]
  · intro s q hq
    refine ⟨ratTruncToZero q, by unfold normalize_equipment_count; rw [hq]; rfl, ?_⟩
    unfold ratTruncToZero
    by_cases h0 : 0 ≤ q
    · rw [if_pos h0]
      have hf0 : (0 : ℤ) ≤ Int.floor q := by
        rw [Int.le_floor]
        exact_mod_cast h0
      have hfq : ((Int.floor q : ℤ) : ℚ) ≤ q := Int.floor_le q
      have hlt : q < Int.floor q + 1 := Int.lt_floor_add_one q
      refine ⟨?_, ?_, fun _ => hf0, ?_⟩
      · rw [abs_of_nonneg h0, abs_of_nonneg (by exact_mod_cast hf0)]
        exact hfq
      · rw [abs_of_nonneg h0, abs_of_nonneg (by exact_mod_cast hf0 : (0:ℚ) ≤ _)]
        exact_mod_cast hlt
      · intro hq0
        have : q = 0 := le_antisymm hq0 h0
        subst this
        simp
    · rw [if_neg h0]
      push_neg at h0
      have hng : 0 < -q := by linarith
      have hf0 : (0 : ℤ) ≤ Int.floor (-q) := by
        rw [Int.le_floor]
        push_cast
        linarith
      have hfq : ((Int.floor (-q) : ℤ) : ℚ) ≤ -q := Int.floor_le (-q)
      have hlt : -q < Int.floor (-q) + 1 := Int.lt_floor_add_one (-q)
      have hfle : (((-Int.floor (-q) : ℤ)) : ℚ) ≤ 0 := by
        push_cast
        exact neg_nonpos.mpr (by exact_mod_cast hf0)
      refine ⟨?_, ?_, ?_, fun _ => by omega⟩
      · rw [abs_of_nonpos (le_of_lt h0), abs_of_nonpos hfle]
        push_cast
        linarith
      · rw [abs_of_nonpos (le_of_lt h0), abs_of_nonpos hfle]
        push_cast
        linarith
      · intro hc
        linarith
  · intro s hn
    unfold normalize_equipment_count
    rw [hn]
    rfl

/-- Claim C3, witness: the truncation characterization applied at the
concrete input `"1.7 Thousand"` (float value 1700). -/
theorem C3_equipment_truncation_witness :
    ∃ z : ℤ, normalize_equipment_count "1.7 Thousand" = some z ∧
      |(z : ℚ)| ≤ |(1700 : ℚ)| :=
  let h := C3_equipment_truncation.2.1 "1.7 Thousand" 1700
    (normalize_eval "1.7 Thousand" ⟨17, 1, 0⟩ 3 1700 (by decide) (by decide)
      (by decide) (by unfold decLitVal; norm_num))
  ⟨h.choose, h.choose_spec.1, h.choose_spec.2.1⟩

theorem pyfloat_extends (s : String) (q : ℚ)
    (h : normalize_numeric_value s = some q) :
    normalize_numeric_pyfloat s = some (PyFloat.num q) := by
  unfold normalize_numeric_value at h
  by_cases h0 : s = "" ∨ s = "-"
  · rw [if_pos h0] at h
    exact Option.noConfusion h
  · rw [if_neg h0] at h
    simp only [normalizeChars, parseFloatChars] at h
    unfold normalize_numeric_pyfloat
    rw [if_neg h0]
    simp only [parsePyFloat]
    cases hp : parseFloatLit (strippedForm (stripEnds s.data)) with
    | none =>
      rw [hp] at h
      exact Option.noConfusion h
    | some d =>
      rw [hp] at h
      simp only [Option.map_map, Option.map_some] at h ⊢
      obtain hq : decLitVal d * scaleFactor (stripEnds s.data) = q := Option.some.inj h
      show some (pyFloatMul (PyFloat.num (decLitVal d)) (scaleFactor (stripEnds s.data))) =
        some (PyFloat.num q)
      rw [show pyFloatMul (PyFloat.num (decLitVal d)) (scaleFactor (stripEnds s.data)) =
        PyFloat.num (decLitVal d * scaleFactor (stripEnds s.data)) from rfl, hq]

/-- Claim C4, counterexample: on input `"nan"` the floating normalizer
returns the float `nan` — a value, not absent and not an error — and the
equipment entry point raises `ValueError` to the caller
(`int(float("nan"))` at transform.py:128, outside any `try`/`except`);
on `"inf"` it raises `OverflowError`. This refutes "never raises an
exception to the caller" for the integer-truncating entry point. -/
theorem C4_counterexample :
    normalize_numeric_pyfloat "nan" = some PyFloat.nan ∧
    normalize_equipment_pyfloat "nan" = Except.error PyError.valueError ∧
    normalize_equipment_pyfloat "inf" = Except.error PyError.overflowError :=
  ⟨rfl, rfl, rfl⟩

/-- Claim C4 (amended): the floating entry point never raises — empty,
`"-"`, and missing (`pd.isna`) inputs give absent, a stripped remainder
that does not parse gives absent, and every input yields a value or
absent. The integer-truncating equipment entry point returns absent on
absent and the truncated integer on every finite parse, but its
`int(...)` call (transform.py:128) is not guarded: a parsed non-finite
float escapes as an exception — `ValueError` for `nan`, `OverflowError`
for `±inf`. On every input where the floating normalizer yields a finite
value, the full-float model agrees with it. -/
theorem C4_equipment_raises :
    normalize_numeric_pyfloat "" = none ∧
    normalize_numeric_pyfloat "-" = none ∧
    normalizeCell Cell.na = Cell.na ∧
    equipmentCell Cell.na = Cell.na ∧
    (∀ s : String, ¬(s = "" ∨ s = "-") →
      parsePyFloat (strippedForm (stripEnds s.data)) = none →
      normalize_numeric_pyfloat s = none) ∧
    (∀ s : String, normalize_numeric_pyfloat s = none ∨
      ∃ f, normalize_numeric_pyfloat s = some f) ∧
    (∀ s : String, normalize_numeric_pyfloat s = none →
      normalize_equipment_pyfloat s = Except.ok none) ∧
    (∀ (s : String) (q : ℚ), normalize_numeric_pyfloat s = some (PyFloat.num q) →
      normalize_equipment_pyfloat s = Except.ok (some (ratTruncToZero q))) ∧
    (∀ s : String, normalize_numeric_pyfloat s = some PyFloat.nan →
      normalize_equipment_pyfloat s = Except.error PyError.valueError) ∧
    (∀ (s : String) (b : Bool), normalize_numeric_pyfloat s = some (PyFloat.inf b) →
      normalize_equipment_pyfloat s = Except.error PyError.overflowError) ∧
    (∀ (s : String) (q : ℚ), normalize_numeric_value s = some q →
      normalize_numeric_pyfloat s = some (PyFloat.num q)) := by
  refine ⟨rfl, rfl, rfl, rfl, ?_, ?_, ?_, ?_, ?_, ?_, ?_⟩
  · intro s h0 hp
    unfold normalize_numeric_pyfloat
    rw [if_neg h0]
    simp only []
    rw [hp]
    rfl
  · intro s
    cases h : normalize_numeric_pyfloat s with
    | none => exact Or.inl rfl
    | some f => exact Or.inr ⟨f, rfl⟩
  · intro s h
    unfold normalize_equipment_pyfloat
    rw [h]
  · intro s q h
    unfold normalize_equipment_pyfloat
    rw [h]
    rfl
  · intro s h
    unfold normalize_equipment_pyfloat
    rw [h]
    rfl
  · intro s b h
    unfold normalize_equipment_pyfloat
    rw [h]
    rfl
  · exact pyfloat_extends

/-- Claim C4, witness: the finite path at the concrete input `"450"` —
the equipment entry point returns the truncated integer, no exception. -/
theorem C4_equipment_raises_witness :
    normalize_equipment_pyfloat "450" = Except.ok (some (ratTruncToZero 450)) :=
  C4_equipment_raises.2.2.2.2.2.2.2.1 "450" 450
    (pyfloat_extends "450" 450
      (normalize_eval "450" ⟨450, 0, 0⟩ 0 450 (by decide) (by decide) (by decide)
        (by unfold decLitVal; norm_num)))

/-- Claim C5: normalization is idempotent. For every decimal fraction
`x = n / 10^k` (every binary64 float is of this form), normalizing its
positional string rendering reproduces exactly `x`; and normalizing an
already-numeric cell (which the code routes through `str(value)`, whose
repr re-parses to the same value) reproduces the same value. -/
theorem C5_normalize_idempotent (n : ℤ) (k : ℕ) :
    normalize_numeric_value (renderDecimal n k) = some ((n : ℚ) / 10 ^ k) ∧
    normalizeCell (Cell.rat ((n : ℚ) / 10 ^ k)) = Cell.rat ((n : ℚ) / 10 ^ k) ∧
    normalizeCell (Cell.int n) = Cell.rat (n : ℚ) :=
  ⟨normalize_renderDecimal n k, rfl, rfl⟩

/-- Claim C5, witness: idempotence at the concrete value 2.3
(`renderDecimal 23 1`). -/
theorem C5_normalize_idempotent_witness :
    normalize_numeric_value (renderDecimal 23 1) = some ((23 : ℚ) / 10 ^ 1) :=
  (C5_normalize_idempotent 23 1).1

/-- Claim C6: the `Country` identity column is byte-for-byte unchanged by
`clean_data` for every frame (even if its values look numeric), and the
Column Classifier never places `"Country"` in the equipment, personnel, or
financial buckets of any column set. -/
theorem C6_identity_preserved :
    (∀ df : Frame, (clean_data df).lookup "Country" = df.lookup "Country") ∧
    (∀ cols : List String,
      "Country" ∉ (identify_metric_columns cols).equipment ∧
      "Country" ∉ (identify_metric_columns cols).personnel ∧
      "Country" ∉ (identify_metric_columns cols).financial) := by
  constructor
  · intro df
    unfold clean_data
    cases hl : df.lookup "Country" with
    | none =>
      simp only [hl]
      rw [lookup_map_keyed cleanColumn df "Country", hl]
      rfl
    | some orig =>
      simp only [hl]
      rw [lookup_restore, lookup_map_keyed cleanColumn df "Country", hl]
      rfl
  · intro cols
    have hcat : categoryOf "Country" = MetricCategory.other := by decide
    refine ⟨?_, ?_, ?_⟩ <;>
      · intro h
        simp only [identify_metric_columns, List.mem_filter, decide_eq_true_eq, hcat] at h
        exact absurd h.2 (by decide)

/-- Claim C6, witness: identity preservation on a concrete frame whose
`Country` values include a numeric-looking string. -/
theorem C6_identity_preserved_witness :
    (clean_data dfIdent).lookup "Country" = dfIdent.lookup "Country" :=
  C6_identity_preserved.1 dfIdent

/-- Claim C9: the Column Classifier is deterministic keyword-substring
classification in fixed priority order — a column is in the equipment
bucket iff it matches an equipment keyword; in the personnel bucket iff it
matches a personnel keyword and no equipment keyword; in the financial
bucket iff it matches a financial keyword and neither earlier set; in
`other` iff it matches none — and the concrete set
{Total Aircraft, Active Personnel, Defense Budget (USD), Land Area (sq km)}
classifies exactly as the claim lists. -/
theorem C9_classifier_priority :
    (∀ (cols : List String) (col : String), col ∈ cols →
      (col ∈ (identify_metric_columns cols).equipment ↔
        matchesAnyKeyword equipment_keywords col = true) ∧
      (col ∈ (identify_metric_columns cols).personnel ↔
        (matchesAnyKeyword equipment_keywords col = false ∧
          matchesAnyKeyword personnel_keywords col = true)) ∧
      (col ∈ (identify_metric_columns cols).financial ↔
        (matchesAnyKeyword equipment_keywords col = false ∧
          matchesAnyKeyword personnel_keywords col = false ∧
          matchesAnyKeyword financial_keywords col = true)) ∧
      (col ∈ (identify_metric_columns cols).other ↔
        (matchesAnyKeyword equipment_keywords col = false ∧
          matchesAnyKeyword personnel_keywords col = false ∧
          matchesAnyKeyword financial_keywords col = false))) ∧
    identify_metric_columns
      ["Total Aircraft", "Active Personnel", "Defense Budget (USD)", "Land Area (sq km)"] =
      ⟨["Total Aircraft"], ["Active Personnel"], ["Defense Budget (USD)"],
        ["Land Area (sq km)"]⟩ := by
  constructor
  · intro cols col hcol
    rcases he : matchesAnyKeyword equipment_keywords col <;>
      rcases hp : matchesAnyKeyword personnel_keywords col <;>
        rcases hf : matchesAnyKeyword financial_keywords col <;>
          simp [identify_metric_columns, List.mem_filter, categoryOf, he, hp, hf, hcol]
  · decide

/-- Claim C9, witness: the priority rule at the concrete column name
`"Total Aircraft"`. -/
theorem C9_classifier_priority_witness :
    "Total Aircraft" ∈ (identify_metric_columns ["Total Aircraft"]).equipment :=
  ((C9_classifier_priority.1 ["Total Aircraft"] "Total Aircraft" (by decide)).1).mpr
    (by decide)

/-! ### Claim theorems: the Derived Metrics Calculator -/

/-- Claim C1, counterexample: the calculator excludes only the literal
column name `Power Index Rank`; the extractor's rank column is named
`GFP Rank` (scraper.py:209), which is numeric after cleaning, so it is a
Power Index component and contributes to the composite score: on a frame
whose only numeric column is `GFP Rank` (ranks 1 and 3) the scores are
`[0, 2/3]`, not zero — refuting "no rank field contributes". -/
theorem C1_counterexample :
    "GFP Rank" ∈ powerIndexComponents dfRank1 ∧
    powerIndexScore dfRank1 = [0, 2/3] := by
  constructor
  · decide
  · have hc : componentCols dfRank1 = [minmaxColumn [(1 : ℚ), 3]] := rfl
    have h1 : listMin [(1 : ℚ), 3] = 1 := by
      show min (1 : ℚ) 3 = 1
      norm_num
    have h2 : listMax [(1 : ℚ), 3] = 3 := by
      show max (1 : ℚ) 3 = 3
      norm_num
    have hm : minmaxColumn [(1 : ℚ), 3] = [0, 2/3] := by
      unfold minmaxColumn
      rw [h1, h2, if_pos (by norm_num)]
      norm_num
    have hn : nRows dfRank1 = 2 := rfl
    unfold powerIndexScore
    rw [hn, hc, hm]
    simp [List.range_succ]

/-- Claim C1 (amended): the composite score selects every numeric-dtype
column except those literally named `country_name`, `url`, or
`Power Index Rank` (rank columns under any other name, such as the
extractor's `GFP Rank`, are selected and do contribute); each selected
column is min–max normalized as `(x - min) / (max - min + 1)` over the
true column minimum and maximum, a zero-range column contributing `0`; and
each record's score is the sum of its normalized column values. -/
theorem C1_power_index_score (df : Frame) :
    ((powerIndexScore df).length = nRows df ∧
      (∀ i : ℕ, i < nRows df →
        (powerIndexScore df).get? i =
          some (((componentCols df).map (fun col => col.getD i 0)).sum))) ∧
    (∀ p ∈ df, (p.1 ≠ "country_name" ∧ p.1 ≠ "url" ∧ p.1 ≠ "Power Index Rank") →
      numericDtype p.2 = true → p.1 ∈ powerIndexComponents df) ∧
    (∀ name ∈ powerIndexComponents df, ∃ cells, (name, cells) ∈ df ∧
      name ≠ "country_name" ∧ name ≠ "url" ∧ name ≠ "Power Index Rank" ∧
      numericDtype cells = true) ∧
    (∀ vals : List ℚ, vals ≠ [] →
      (listMin vals ∈ vals ∧ ∀ x ∈ vals, listMin vals ≤ x) ∧
      (listMax vals ∈ vals ∧ ∀ x ∈ vals, x ≤ listMax vals)) ∧
    (∀ (vals : List ℚ) (i : ℕ) (x : ℚ), vals.get? i = some x →
      (0 < listMax vals - listMin vals →
        (minmaxColumn vals).get? i =
          some ((x - listMin vals) / (listMax vals - listMin vals + 1))) ∧
      (¬ 0 < listMax vals - listMin vals → (minmaxColumn vals).get? i = some 0)) := by
  refine ⟨⟨?_, ?_⟩, ?_, ?_, ?_, ?_⟩
  · unfold powerIndexScore
    rw [List.length_map, List.length_range]
  · intro i hi
    unfold powerIndexScore
    rw [List.get?_map, List.get?_range hi]
    rfl
  · intro p hp hnames hdtype
    unfold powerIndexComponents
    refine List.mem_map.mpr ⟨p, List.mem_filter.mpr ⟨hp, ?_⟩, rfl⟩
    simp only [Bool.and_eq_true, bne_iff_ne, ne_eq]
    exact ⟨⟨⟨hnames.1, hnames.2.1⟩, hnames.2.2⟩, hdtype⟩
  · intro name hname
    unfold powerIndexComponents at hname
    obtain ⟨p, hp, hfst⟩ := List.mem_map.mp hname
    have hf := List.mem_filter.mp hp
    simp only [Bool.and_eq_true, bne_iff_ne, ne_eq] at hf
    exact ⟨p.2, by rw [← hfst]; exact ⟨(Prod.mk.eta ▸ hf.1 : (p.1, p.2) ∈ df),
      hf.2.1.1.1, hf.2.1.1.2, hf.2.1.2, hf.2.2⟩⟩
  · intro vals hv
    exact ⟨listMin_spec vals hv, listMax_spec vals hv⟩
  · intro vals i x hx
    constructor
    · intro hrange
      unfold minmaxColumn
      rw [if_pos hrange, List.get?_map, hx]
      rfl
    · intro hrange
      unfold minmaxColumn
      rw [if_neg hrange, List.get?_map, hx]
      rfl

/-- Claim C1, witness: the amended score formula at row 0 of the concrete
rank-only frame. -/
theorem C1_power_index_score_witness :
    (powerIndexScore dfRank1).get? 0 =
      some (((componentCols dfRank1).map (fun col => col.getD 0 0)).sum) :=
  (C1_power_index_score dfRank1).1.2 0 (by decide)

/-- Claim C8, counterexample: the calculator tests only for the literal
column name `Power Index Rank` (transform.py:257); the extractor's
rank-like column is `GFP Rank` (scraper.py:209), so on a cleaned frame
holding `GFP Rank` the derived table has no rank-gap column at all — its
columns are exactly `country_name` and `Power Index Score`. -/
theorem C8_counterexample :
    (dfRank2.lookup "GFP Rank").isSome = true ∧
    (calculate_derived_metrics dfRank2).map Prod.fst =
      ["country_name", "Power Index Score"] := by
  constructor
  · decide
  · decide

/-- Claim C8 (amended): when a column literally named `Power Index Rank`
exists, the derived frame contains `Power Index Rank Gap`, whose value per
record is the extracted rank minus the minimum extracted rank over all
records: the value `m` returned by the minimum is a true lower bound, and
any record whose extracted rank equals `m` has gap exactly 0. -/
theorem C8_rank_gap (df : Frame) (cells : List Cell) (i : ℕ) (m : ℚ)
    (hc : df.lookup "Power Index Rank" = some cells)
    (hm : optMin ((cells.map extractCell).map cellToOpt) = some m)
    (hi : ((cells.map extractCell).map cellToOpt).get? i = some (some m)) :
    (calculate_derived_metrics df).lookup "Power Index Rank Gap" =
      some (rankGapCells df) ∧
    (rankGapCells df).get? i = some (Cell.rat 0) ∧
    (∀ x ∈ ((cells.map extractCell).map cellToOpt).filterMap id, m ≤ x) := by
  have hranks : (rankCells df).map cellToOpt = (cells.map extractCell).map cellToOpt := by
    unfold rankCells
    rw [hc]
    rfl
  refine ⟨?_, ?_, ?_⟩
  · simp only [calculate_derived_metrics, hc, Option.isSome_some, if_true]
    have e1 : ("Power Index Rank Gap" == "country_name") = false := by decide
    have e2 : ("Power Index Rank Gap" == "Power Index Score") = false := by decide
    have e3 : ("Power Index Rank Gap" == "Power Index Rank") = false := by decide
    have e4 : ("Power Index Rank Gap" == "Power Index Rank Gap") = true := by decide
    by_cases hcomp : powerIndexComponents df ≠ [] <;>
      simp [hcomp, List.cons_append, List.nil_append, List.lookup_cons, e1, e2, e3, e4]
  · simp only [rankGapCells]
    rw [hranks, hm, List.get?_map, hi]
    simp
  · intro x hx
    unfold optMin at hm
    cases heq : ((cells.map extractCell).map cellToOpt).filterMap id with
    | nil =>
      rw [heq] at hm
      exact Option.noConfusion hm
    | cons v vs =>
      rw [heq] at hm hx
      have hme : vs.foldl min v = m := Option.some.injEq _ _ ▸ by
        simpa using hm
      rw [← hme]
      exact foldl_min_le v vs x hx

/-- Claim C8, witness: the rank-gap rule on a concrete frame with a
`Power Index Rank` column holding ranks 2 and 1 — the record with minimum
rank 1 (row index 1) has gap 0. -/
theorem C8_rank_gap_witness : (rankGapCells dfPir).get? 1 = some (Cell.rat 0) := by
  have h := C8_rank_gap dfPir [Cell.int 2, Cell.int 1] 1 1 (by decide) ?_ ?_
  · exact h.2.1
  · show optMin [some ((2 : ℤ).natAbs : ℚ), some ((1 : ℤ).natAbs : ℚ)] = some 1
    unfold optMin
    simp only [List.filterMap_cons, List.filterMap_nil, id]
    norm_num [min_def]
  · show List.get? [some ((2 : ℤ).natAbs : ℚ), some ((1 : ℤ).natAbs : ℚ)] 1 = some (some 1)
    norm_num

theorem get?_zipWith (f : Cell → Cell → Cell) (as bs : List Cell) (i : ℕ) (a b : Cell)
    (ha : as.get? i = some a) (hb : bs.get? i = some b) :
    (as.zipWith f bs).get? i = some (f a b) := by
  induction as generalizing bs i with
  | nil => simp at ha
  | cons x xs ih =>
    cases bs with
    | nil => simp at hb
    | cons y ys =>
      cases i with
      | zero =>
        simp only [List.get?] at ha hb
        obtain rfl : x = a := Option.some.inj ha
        obtain rfl : y = b := Option.some.inj hb
        rfl
      | succ j =>
        simp only [List.get?] at ha hb
        exact ih ys j ha hb

/-- Claim C7, counterexample: `Submarines` is classified as an equipment
field by the Column Classifier (keyword `submarine`), a population column
is present, yet the calculator emits no `Submarines_per_capita` column —
its per-capita keyword list (transform.py:263-265) is only
`aircraft/tank/helicopter/vessel`, a strict subset of the classifier's
equipment keywords, refuting "one per-capita column per (population,
equipment) pairing". -/
theorem C7_counterexample :
    "Submarines" ∈ (identify_metric_columns (dfSubs.map Prod.fst)).equipment ∧
    populationCols dfSubs = ["Population"] ∧
    ((calculate_derived_metrics dfSubs).map Prod.fst).all
      (fun n => n != "Submarines_per_capita") = true := by
  refine ⟨by decide, by decide, by decide⟩

/-- Claim C7 (amended): per-capita columns are emitted only for columns
whose name matches one of `aircraft`, `tank`, `helicopter`, `vessel` — a
strict subset of the equipment category (every such column is
equipment-classified, but e.g. submarine/carrier/ship columns are not
paired) — each paired with the first population column; the emitted column
is named `<equipment>_per_capita` and holds
`equipment_value / (population_value + 1)` per record. -/
theorem C7_per_capita (df : Frame) (popc : String) (rest : List String) (eqc : String)
    (hpop : populationCols df = popc :: rest)
    (heq : eqc ∈ colsMatching perCapitaKws df) :
    categoryOf eqc = MetricCategory.equipment ∧
    (eqc ++ "_per_capita", divPlusOne (colCells df eqc) (colCells df popc)) ∈
      calculate_derived_metrics df ∧
    (∀ (i : ℕ) (a b : Cell) (x y : ℚ),
      (colCells df eqc).get? i = some a → (colCells df popc).get? i = some b →
      cellToOpt a = some x → cellToOpt b = some y →
      (divPlusOne (colCells df eqc) (colCells df popc)).get? i =
        some (Cell.rat (x / (y + 1)))) := by
  refine ⟨?_, ?_, ?_⟩
  · have hmatch : matchesAnyKeyword perCapitaKws eqc = true :=
      (List.mem_filter.mp (by exact heq)).2
    have hsub : ∀ kw ∈ perCapitaKws, kw ∈ equipment_keywords := by decide
    have hany : matchesAnyKeyword equipment_keywords eqc = true := by
      unfold matchesAnyKeyword at hmatch ⊢
      obtain ⟨kw, hkw, hs⟩ := List.any_eq_true.mp hmatch
      exact List.any_eq_true.mpr ⟨kw, hsub kw hkw, hs⟩
    unfold categoryOf
    rw [if_pos hany]
  · simp only [calculate_derived_metrics, hpop]
    refine List.mem_cons_of_mem _ ?_
    refine List.mem_append.mpr (Or.inl ?_)
    refine List.mem_append.mpr (Or.inl ?_)
    refine List.mem_append.mpr (Or.inl ?_)
    refine List.mem_append.mpr (Or.inl ?_)
    refine List.mem_append.mpr (Or.inr ?_)
    exact List.mem_map.mpr ⟨eqc, heq, rfl⟩
  · intro i a b x y ha hb hx hy
    unfold divPlusOne
    rw [get?_zipWith _ _ _ i a b ha hb, hx, hy]

/-- Claim C7, witness: the per-capita column for `Total Aircraft` on a
concrete frame with a population column. -/
theorem C7_per_capita_witness :
    ("Total Aircraft" ++ "_per_capita",
      divPlusOne (colCells dfAir "Total Aircraft") (colCells dfAir "Population")) ∈
      calculate_derived_metrics dfAir :=
  (C7_per_capita dfAir "Population" [] "Total Aircraft" (by decide) (by decide)).2.1

/-! ### Fill-missing invariance lemmas (claim C10) -/

theorem fillZeroVal_fillCell (c : Cell) :
    fillZeroVal (if cellIsNa c then Cell.rat 0 else c) = fillZeroVal c := by
  cases c <;> rfl

theorem map_fillZeroVal_fillCells (cells : List Cell) :
    (cells.map (fun c => if cellIsNa c then Cell.rat 0 else c)).map fillZeroVal =
      cells.map fillZeroVal := by
  rw [List.map_map]
  exact List.map_congr_left (fun c _ => fillZeroVal_fillCell c)

theorem numericDtype_fillCells (cells : List Cell) (h : numericDtype cells = true) :
    numericDtype (cells.map (fun c => if cellIsNa c then Cell.rat 0 else c)) = true := by
  unfold numericDtype at h ⊢
  rw [Bool.and_eq_true] at h ⊢
  obtain ⟨hall, hany⟩ := h
  rw [List.all_eq_true] at hall
  constructor
  · rw [List.all_eq_true]
    intro c hc
    obtain ⟨c0, hc0, rfl⟩ := List.mem_map.mp hc
    have hs := hall c0 hc0
    cases c0 with
    | na => rfl
    | str s => simp [cellIsStr] at hs
    | int n => rfl
    | rat q => rfl
  · rw [List.any_eq_true] at hany ⊢
    obtain ⟨c0, hc0, hv⟩ := hany
    refine ⟨if cellIsNa c0 then Cell.rat 0 else c0, List.mem_map.mpr ⟨c0, hc0, rfl⟩, ?_⟩
    cases c0 with
    | na => simp [cellToOpt] at hv
    | str s => simp [cellToOpt] at hv
    | int n => rfl
    | rat q => rfl

theorem numericDtype_fillBranch (cells : List Cell) :
    numericDtype (if numericDtype cells then
      cells.map (fun c => if cellIsNa c then Cell.rat 0 else c) else cells) =
      numericDtype cells := by
  cases h : numericDtype cells with
  | false => simpa using h
  | true => simpa using numericDtype_fillCells cells h

theorem fillBranch_map_fillZeroVal (cells : List Cell) :
    (if numericDtype cells then
      cells.map (fun c => if cellIsNa c then Cell.rat 0 else c) else cells).map fillZeroVal =
      cells.map fillZeroVal := by
  cases h : numericDtype cells with
  | false => simp
  | true => simpa using map_fillZeroVal_fillCells cells

theorem fill_frame_fst (df : Frame) :
    (fillNumericNaFrame df).map Prod.fst = df.map Prod.fst := by
  unfold fillNumericNaFrame
  rw [List.map_map]
  exact List.map_congr_left (fun p _ => rfl)

theorem nRows_fill (df : Frame) : nRows (fillNumericNaFrame df) = nRows df := by
  cases df with
  | nil => rfl
  | cons p tl =>
    show (if numericDtype p.2 then
      p.2.map (fun c => if cellIsNa c then Cell.rat 0 else c) else p.2).length = p.2.length
    cases h : numericDtype p.2 with
    | false => simp
    | true => simp

theorem componentCols_fill (df : Frame) :
    componentCols (fillNumericNaFrame df) = componentCols df := by
  unfold componentCols fillNumericNaFrame
  induction df with
  | nil => rfl
  | cons p tl ih =>
    simp only [List.map_cons, List.filter_cons]
    rw [numericDtype_fillBranch p.2]
    by_cases hcond : (p.1 != "country_name" && p.1 != "url" && p.1 != "Power Index Rank" &&
        numericDtype p.2) = true
    · rw [if_pos hcond, if_pos hcond]
      simp only [List.map_cons]
      rw [ih]
      congr 1
      exact congrArg minmaxColumn (fillBranch_map_fillZeroVal p.2)
    · rw [if_neg hcond, if_neg hcond]
      exact ih

theorem colCells_fill (df : Frame) (c : String) :
    colCells (fillNumericNaFrame df) c =
      (if numericDtype (colCells df c) then
        (colCells df c).map (fun x => if cellIsNa x then Cell.rat 0 else x)
      else colCells df c) := by
  unfold colCells fillNumericNaFrame
  rw [lookup_map_keyed (fun _ cells => if numericDtype cells then
    cells.map (fun x => if cellIsNa x then Cell.rat 0 else x) else cells) df c]
  cases df.lookup c with
  | none =>
    show ([] : List Cell) = if numericDtype ([] : List Cell) then _ else _
    rfl
  | some cells => rfl

theorem getD_map_fillCell (cells : List Cell) (i : ℕ) :
    fillZeroVal ((cells.map (fun x => if cellIsNa x then Cell.rat 0 else x)).getD i Cell.na) =
      fillZeroVal (cells.getD i Cell.na) := by
  induction cells generalizing i with
  | nil => rfl
  | cons x xs ih =>
    cases i with
    | zero => exact fillZeroVal_fillCell x
    | succ j => exact ih j

theorem getD_fillBranch (cells : List Cell) (i : ℕ) :
    fillZeroVal ((if numericDtype cells then
      cells.map (fun x => if cellIsNa x then Cell.rat 0 else x) else cells).getD i Cell.na) =
      fillZeroVal (cells.getD i Cell.na) := by
  cases h : numericDtype cells with
  | false => simp
  | true =>
    simp only [h, if_true]
    exact getD_map_fillCell cells i

theorem rowSumFill_fill (df : Frame) (names : List String) (n : ℕ) :
    rowSumFill (names.map (colCells (fillNumericNaFrame df))) n =
      rowSumFill (names.map (colCells df)) n := by
  unfold rowSumFill
  refine List.map_congr_left (fun i _ => ?_)
  congr 1
  rw [List.map_map, List.map_map]
  refine congrArg List.sum ?_
  refine List.map_congr_left (fun c _ => ?_)
  show fillZeroVal ((colCells (fillNumericNaFrame df) c).getD i Cell.na) =
    fillZeroVal ((colCells df c).getD i Cell.na)
  rw [colCells_fill df c]
  exact getD_fillBranch (colCells df c) i

/-- Claim C10 (implicit): in the Derived Metrics Calculator, a missing
cell is read as the value 0 (`fillna(0)`): replacing every missing cell of
every numeric column by a literal 0 changes neither any record's Power
Index Score (the 0 enters the per-column min–max normalization, possibly
lowering the column minimum) nor any record's `Equipment_Total` or
`Personnel_Total` row sums — missing cells contribute exactly the
normalized value of 0, and 0 to the totals, rather than being skipped. -/
theorem C10_fillna_as_zero (df : Frame) :
    fillZeroVal Cell.na = 0 ∧
    powerIndexScore (fillNumericNaFrame df) = powerIndexScore df ∧
    equipmentTotalCells (fillNumericNaFrame df) = equipmentTotalCells df ∧
    personnelTotalCells (fillNumericNaFrame df) = personnelTotalCells df := by
  refine ⟨rfl, ?_, ?_, ?_⟩
  · unfold powerIndexScore
    rw [nRows_fill, componentCols_fill]
  · unfold equipmentTotalCells
    have hcols : colsMatching totalEquipKws (fillNumericNaFrame df) =
        colsMatching totalEquipKws df := by
      unfold colsMatching
      rw [fill_frame_fst]
    rw [hcols, nRows_fill]
    exact rowSumFill_fill df _ _
  · unfold personnelTotalCells
    have hcols : personnelTotalCols (fillNumericNaFrame df) = personnelTotalCols df := by
      unfold personnelTotalCols colsMatching
      rw [fill_frame_fst]
    rw [hcols, nRows_fill]
    exact rowSumFill_fill df _ _
